import Mathlib

/-!
Verification of the frontmatter extraction and metadata validation logic of
scripts/check-docs-metadata.js.

The file system is modelled abstractly: a path either exists or not
(fs.existsSync), and reading a path either yields the file content as a
string or fails (fs.readFileSync throwing, modelled as none).

The wall clock is modelled by passing the current civil date (what
new Date() with the time-of-day zeroed denotes) as an explicit parameter;
the embedding works at day granularity in the proleptic Gregorian calendar
(time zone UTC), an order-isomorphic image of the millisecond timestamps the
script compares, since both compared values are day-aligned.

Whitespace predicates model the ASCII fragment of JavaScript whitespace
(space, tab, carriage return, line feed), which is what can occur in the
metadata lines the script reads.
-/

namespace DocsMetadata

/-- Abstract file system: existence test and fallible read, mirroring
fs.existsSync and fs.readFileSync (whose failure is modelled as none). -/
structure FileSystem where
  existsSync : String → Bool
  readFileSync : String → Option String

/-- Result record returned by validateMetadata. -/
structure ValidationResult where
  errors : List String
  warnings : List String
deriving DecidableEq, Repr

/-- A civil (calendar) date, year-month-day. -/
structure CalDate where
  year : Nat
  month : Nat
  day : Nat
deriving DecidableEq, Repr

/-- Removing whitespace from both ends of a character list. -/
def trimChars (cs : List Char) : List Char :=
  ((cs.dropWhile Char.isWhitespace).reverse.dropWhile Char.isWhitespace).reverse

/-- JavaScript String.prototype.trim, restricted to the ASCII whitespace
that can occur here. -/
def jsTrim (s : String) : String := String.mk (trimChars s.toList)

/-- Splitting a string at every newline character, the semantics of the
JavaScript call content.split with a newline separator. -/
def splitLinesAux : List Char → List Char → List (List Char)
  | [], acc => [acc.reverse]
  | c :: cs, acc =>
    if c = '\n' then acc.reverse :: splitLinesAux cs []
    else splitLinesAux cs (c :: acc)

/-- The lines of a string, split on the newline character. -/
def splitLines (s : String) : List String :=
  (splitLinesAux s.toList []).map (fun l => String.mk l)

/-- The loop body of extractFrontmatter: scans lines, counting delimiter
lines (lines whose trimmed content equals three hyphens); the first
delimiter opens the region, the second breaks the scan; lines seen while
the count is exactly one are collected. -/
def fmLoop : List String → Bool → Nat → List String → List String
  | [], _, _, acc => acc
  | line :: rest, inFM, dc, acc =>
    if jsTrim line = "---" then
      if dc + 1 = 1 then fmLoop rest true (dc + 1) acc
      else if dc + 1 = 2 then acc
      else if inFM && dc + 1 = 1 then fmLoop rest inFM (dc + 1) (acc ++ [line])
      else fmLoop rest inFM (dc + 1) acc
    else if inFM && dc = 1 then fmLoop rest inFM dc (acc ++ [line])
    else fmLoop rest inFM dc acc

/-- extractFrontmatter: read the file, split on newlines, run the scan,
join the collected lines with newlines; a failed read yields none. -/
def extractFrontmatter (fs : FileSystem) (filePath : String) : Option String :=
  match fs.readFileSync filePath with
  | none => none
  | some content =>
    some (String.intercalate "\n" (fmLoop (splitLines content) false 0 []))

/-- A word character in the sense of the regex class backslash-w:
ASCII letter, digit or underscore. -/
def isWordChar (c : Char) : Bool := c.isAlphanum || c == '_'

/-- A line terminator character, which the regex dot does not match. -/
def isLineTerm (c : Char) : Bool :=
  c == '\n' || c == '\r' || c.toNat == 0x2028 || c.toNat == 0x2029

/-- Matching one frontmatter line against the anchored regex
word-characters, colon, optional whitespace, captured rest: on success,
the captured key and the trimmed captured value. The captured rest must
reach the end of the line, so a line terminator left after the greedy
whitespace run defeats the match. -/
def matchFieldLine (line : String) : Option (String × String) :=
  let cs := line.toList
  let key := cs.takeWhile isWordChar
  let rest := cs.drop key.length
  match key, rest with
  | [], _ => none
  | _, [] => none
  | _, c :: rest2 =>
    if c = ':' then
      let afterWs := rest2.dropWhile Char.isWhitespace
      if afterWs.any isLineTerm then none
      else some (String.mk key, jsTrim (String.mk afterWs))
    else none

/-- The field lines of a frontmatter block, in order of appearance. -/
def parseFields (frontmatter : String) : List (String × String) :=
  (splitLines frontmatter).filterMap matchFieldLine

/-- Lookup in the field map built with Map.set semantics: a later binding
of the same key overwrites an earlier one. -/
def fieldGet (fields : List (String × String)) (k : String) : Option String :=
  fields.foldl (fun acc p => if p.1 = k then some p.2 else acc) none

/-- A quote character: double quote or apostrophe (code point 39). -/
def isQuoteChar (c : Char) : Bool := c == '"' || c.toNat == 39

/-- The global quote removal the script applies to the date value,
replace all single or double quotes with the empty string. -/
def stripQuotes (s : String) : String :=
  String.mk (s.toList.filter (fun c => !(isQuoteChar c)))

/-- The anchored date regex: exactly four digits, hyphen, two digits,
hyphen, two digits. -/
def matchesDatePattern (s : String) : Bool :=
  match s.toList with
  | [y1, y2, y3, y4, h1, m1, m2, h2, d1, d2] =>
    y1.isDigit && y2.isDigit && y3.isDigit && y4.isDigit && h1 == '-' &&
    m1.isDigit && m2.isDigit && h2 == '-' && d1.isDigit && d2.isDigit
  | _ => false

/-- Numeric value of a digit character. -/
def digitVal (c : Char) : Nat := c.toNat - 48

/-- Reading the year, month and day fields out of a string of the shape
YYYY-MM-DD; none when the string does not have exactly ten characters. -/
def parseISODate (s : String) : Option CalDate :=
  match s.toList with
  | [y1, y2, y3, y4, _, m1, m2, _, d1, d2] =>
    some ⟨1000 * digitVal y1 + 100 * digitVal y2 + 10 * digitVal y3 + digitVal y4,
          10 * digitVal m1 + digitVal m2,
          10 * digitVal d1 + digitVal d2⟩
  | _ => none

/-- Gregorian leap year test. -/
def isLeap (y : Nat) : Bool :=
  decide ((y % 4 = 0 ∧ y % 100 ≠ 0) ∨ y % 400 = 0)

/-- Length of a month (1 to 12) in a leap or common year. -/
def monthLength (leap : Bool) (m : Nat) : Nat :=
  match m with
  | 1 => 31
  | 2 => if leap then 29 else 28
  | 3 => 31
  | 4 => 30
  | 5 => 31
  | 6 => 30
  | 7 => 31
  | 8 => 31
  | 9 => 30
  | 10 => 31
  | 11 => 30
  | 12 => 31
  | _ => 0

/-- Days of the year strictly before the first day of month m. -/
def daysBeforeMonth (leap : Bool) (m : Nat) : Nat :=
  let l := if leap then 1 else 0
  match m with
  | 1 => 0
  | 2 => 31
  | 3 => 59 + l
  | 4 => 90 + l
  | 5 => 120 + l
  | 6 => 151 + l
  | 7 => 181 + l
  | 8 => 212 + l
  | 9 => 243 + l
  | 10 => 273 + l
  | 11 => 304 + l
  | 12 => 334 + l
  | _ => 0

/-- Number of leap years among the years 0 to y - 1, in closed form:
multiples of 4 below y, minus multiples of 100, plus multiples of 400,
each counted including year 0. The recurrence this closed form satisfies
is proved below as leapsBefore_succ. -/
def leapsBefore (y : Nat) : Nat :=
  (y + 3) / 4 - (y + 99) / 100 + (y + 399) / 400

/-- Number of days in year y. -/
def yearLength (y : Nat) : Nat := 365 + (if isLeap y then 1 else 0)

/-- Day count from year 0 to the first day of year y. -/
def yearStart (y : Nat) : Nat := 365 * y + leapsBefore y

/-- Day number of a civil date, days since 0000-01-01 in the proleptic
Gregorian calendar: the embedding of the millisecond timestamp that
new Date on a YYYY-MM-DD string denotes, up to the order-preserving
affine change of scale. -/
def dayNumber (dt : CalDate) : Nat :=
  yearStart dt.year + daysBeforeMonth (isLeap dt.year) dt.month + (dt.day - 1)

/-- The calendar dates that ECMAScript Date accepts when parsing a
YYYY-MM-DD string: month 1 to 12, day 1 to the length of that month.
A string with fields outside these bounds parses to an invalid date,
which the script detects through isNaN. -/
def validCalDate (dt : CalDate) : Prop :=
  1 ≤ dt.month ∧ dt.month ≤ 12 ∧ 1 ≤ dt.day ∧
    dt.day ≤ monthLength (isLeap dt.year) dt.month

instance (dt : CalDate) : Decidable (validCalDate dt) := by
  unfold validCalDate
  infer_instance

/-- Strict order on civil dates: lexicographic on year, month, day. -/
def calLt (a b : CalDate) : Prop :=
  a.year < b.year ∨
    (a.year = b.year ∧
      (a.month < b.month ∨ (a.month = b.month ∧ a.day < b.day)))

instance (a b : CalDate) : Decidable (calLt a b) := by
  unfold calLt
  infer_instance

/-- The tags rule: absent key warns missing tags; a value without an
opening bracket warns tags must be an array; a value of the empty-array
shape warns tags array cannot be empty. -/
def tagsWarnings (fields : List (String × String)) : List String :=
  match fieldGet fields "tags" with
  | none => ["missing tags"]
  | some tagsValue =>
    if !(tagsValue.toList.contains '[') then ["tags must be an array"]
    else if isEmptyArrayShape tagsValue then ["tags array cannot be empty"]
    else []
where
  /-- The anchored regex bracket, optional whitespace, close bracket. -/
  isEmptyArrayShape (s : String) : Bool :=
    match s.toList with
    | [] => false
    | c :: rest =>
      match rest.reverse with
      | [] => false
      | lastC :: midRev =>
        c == '[' && lastC == ']' && midRev.all Char.isWhitespace

/-- The date rule: missing key, then the format regex on the value with
all quotes removed and trimmed, then field-range validity of the parsed
date, then the strictly-in-the-future comparison against today. -/
def dateErrors (today : CalDate) (fields : List (String × String)) : List String :=
  match fieldGet fields "date" with
  | none => ["missing date"]
  | some v =>
    let dateValue := jsTrim (stripQuotes v)
    if !(matchesDatePattern dateValue) then ["invalid date format - use YYYY-MM-DD"]
    else
      match parseISODate dateValue with
      | none => ["invalid date value"]
      | some dt =>
        if validCalDate dt then
          if dayNumber today < dayNumber dt then ["date cannot be in the future"]
          else []
        else ["invalid date value"]

/-- The title rule: missing key, or a value that trims to the empty
string or to an empty quoted literal. -/
def titleErrors (fields : List (String × String)) : List String :=
  match fieldGet fields "title" with
  | none => ["missing title"]
  | some v =>
    let titleValue := jsTrim v
    if titleValue = "" ∨ titleValue = "\"\"" ∨
        titleValue = String.mk [Char.ofNat 39, Char.ofNat 39] then
      ["title cannot be empty"]
    else []

/-- validateMetadata: existence check, extraction with its unreadable
short-circuit, then the field map and the three rule blocks, whose pushes
happen in the order tags (warnings), date (errors), title (errors). -/
def validateMetadata (fs : FileSystem) (today : CalDate) (filePath : String) :
    ValidationResult :=
  if fs.existsSync filePath then
    match extractFrontmatter fs filePath with
    | none => ⟨["cannot read file"], []⟩
    | some frontmatter =>
      let fields := parseFields frontmatter
      ⟨dateErrors today fields ++ titleErrors fields, tagsWarnings fields⟩
  else ⟨["file not found"], []⟩

/-- A file system holding exactly one readable file. -/
def singleFileFS (path content : String) : FileSystem :=
  ⟨fun p => p == path, fun p => if p == path then some content else none⟩

/-- A file system where every path exists but reading always fails. -/
def unreadableFS : FileSystem :=
  ⟨fun _ => true, fun _ => none⟩

/-- The quote stripping as the specification sentence reads it: quote
characters are removed only at the two ends of the value, together with
the surrounding whitespace. Stated for comparison with stripQuotes, the
global removal the script actually applies. -/
def specStripSurroundingQuotes (s : String) : String :=
  jsTrim (String.mk
    ((((jsTrim s).toList.dropWhile isQuoteChar).reverse.dropWhile isQuoteChar).reverse))

/-- The four date issue codes. -/
def dateCodes : List String :=
  ["missing date", "invalid date format - use YYYY-MM-DD",
   "invalid date value", "date cannot be in the future"]

/-- The two title issue codes. -/
def titleCodes : List String := ["missing title", "title cannot be empty"]

/-- The three tags issue codes. -/
def tagsCodes : List String :=
  ["missing tags", "tags must be an array", "tags array cannot be empty"]

theorem leapsBefore_succ (y : Nat) :
    leapsBefore (y + 1) = leapsBefore y + (if isLeap y then 1 else 0) := by
  by_cases h : (y % 4 = 0 ∧ y % 100 ≠ 0) ∨ y % 400 = 0 <;>
    simp [leapsBefore, isLeap, h] <;> omega

theorem yearStart_succ (y : Nat) :
    yearStart (y + 1) = yearStart y + yearLength y := by
  cases hb : isLeap y <;>
    simp [yearStart, yearLength, leapsBefore_succ, hb] <;> omega

theorem yearStart_lt {y1 y2 : Nat} (h : y1 < y2) :
    yearStart y1 + yearLength y1 ≤ yearStart y2 := by
  induction y2 with
  | zero => omega
  | succ n ih =>
    rcases Nat.lt_succ_iff_lt_or_eq.mp h with h2 | h2
    · have h3 := ih h2
      have h4 := yearStart_succ n
      have h5 : 365 ≤ yearLength n := by
        cases hb : isLeap n <;> simp [yearLength, hb]
      omega
    · subst h2
      exact Nat.le_of_eq (yearStart_succ y1).symm

theorem monthLength_le (l : Bool) : ∀ m, m < 13 → monthLength l m ≤ 31 := by
  cases l <;> decide

theorem offset_lt_yearLength (l : Bool) :
    ∀ m, m < 13 → ∀ d, d < 32 → 1 ≤ m → 1 ≤ d → d ≤ monthLength l m →
      daysBeforeMonth l m + (d - 1) < 365 + (if l then 1 else 0) := by
  cases l <;> decide

theorem daysBeforeMonth_step (l : Bool) :
    ∀ m1, m1 < 13 → ∀ m2, m2 < 13 → 1 ≤ m1 → m1 < m2 →
      daysBeforeMonth l m1 + monthLength l m1 ≤ daysBeforeMonth l m2 := by
  cases l <;> decide

theorem dayNumber_lt_of_calLt (a b : CalDate) (ha : validCalDate a)
    (hb : validCalDate b) (h : calLt a b) : dayNumber a < dayNumber b := by
  obtain ⟨ham1, ham2, had1, had2⟩ := ha
  obtain ⟨hbm1, hbm2, hbd1, hbd2⟩ := hb
  have hda : a.day < 32 := by
    have := monthLength_le (isLeap a.year) a.month (by omega)
    omega
  rcases h with hy | ⟨hy, hm | ⟨hm, hd⟩⟩
  · have h1 := offset_lt_yearLength (isLeap a.year) a.month (by omega) a.day hda
      ham1 had1 had2
    have h2 := yearStart_lt hy
    have h3 : 365 + (if isLeap a.year then 1 else 0) = yearLength a.year := rfl
    unfold dayNumber
    omega
  · have h1 := daysBeforeMonth_step (isLeap a.year) a.month (by omega) b.month
      (by omega) ham1 hm
    unfold dayNumber
    rw [hy] at h1 had2 ⊢
    omega
  · unfold dayNumber
    rw [hy, hm]
    omega

theorem calLt_trichotomy (a b : CalDate) : calLt a b ∨ a = b ∨ calLt b a := by
  obtain ⟨y1, m1, d1⟩ := a
  obtain ⟨y2, m2, d2⟩ := b
  simp [calLt, CalDate.mk.injEq]
  omega

theorem dayNumber_lt_iff (a b : CalDate) (ha : validCalDate a)
    (hb : validCalDate b) : dayNumber a < dayNumber b ↔ calLt a b := by
  constructor
  · intro h
    rcases calLt_trichotomy a b with hlt | heq | hgt
    · exact hlt
    · subst heq
      omega
    · exact absurd (dayNumber_lt_of_calLt b a hb ha hgt) (by omega)
  · exact dayNumber_lt_of_calLt a b ha hb

theorem fmLoop_cons (line : String) (rest : List String) (inFM : Bool) (dc : Nat)
    (acc : List String) :
    fmLoop (line :: rest) inFM dc acc =
      if jsTrim line = "---" then
        if dc + 1 = 1 then fmLoop rest true (dc + 1) acc
        else if dc + 1 = 2 then acc
        else if inFM && dc + 1 = 1 then fmLoop rest inFM (dc + 1) (acc ++ [line])
        else fmLoop rest inFM (dc + 1) acc
      else if inFM && dc = 1 then fmLoop rest inFM dc (acc ++ [line])
      else fmLoop rest inFM dc acc := rfl

theorem fmLoop_skip (pre rest : List String) (acc : List String)
    (h : ∀ l ∈ pre, jsTrim l ≠ "---") :
    fmLoop (pre ++ rest) false 0 acc = fmLoop rest false 0 acc := by
  induction pre with
  | nil => rfl
  | cons hd tl ih =>
    simp only [List.mem_cons, forall_eq_or_imp] at h
    simp only [List.cons_append]
    rw [fmLoop_cons, if_neg h.1]
    simp only [Bool.false_and, Bool.false_eq_true, if_false]
    exact ih h.2

theorem fmLoop_open (d : String) (rest acc : List String)
    (hd : jsTrim d = "---") :
    fmLoop (d :: rest) false 0 acc = fmLoop rest true 1 acc := by
  rw [fmLoop_cons, if_pos hd]
  norm_num

theorem fmLoop_collect (mid rest : List String) (acc : List String)
    (h : ∀ l ∈ mid, jsTrim l ≠ "---") :
    fmLoop (mid ++ rest) true 1 acc = fmLoop rest true 1 (acc ++ mid) := by
  induction mid generalizing acc with
  | nil => simp
  | cons hd tl ih =>
    simp only [List.mem_cons, forall_eq_or_imp] at h
    simp only [List.cons_append]
    rw [fmLoop_cons, if_neg h.1]
    simp only [Bool.true_and, decide_True, if_true]
    rw [ih (acc ++ [hd]) h.2]
    simp

theorem fmLoop_close (d : String) (rest acc : List String)
    (hd : jsTrim d = "---") :
    fmLoop (d :: rest) true 1 acc = acc := by
  rw [fmLoop_cons, if_pos hd]
  norm_num

theorem fmLoop_no_delim (lines : List String)
    (h : ∀ l ∈ lines, jsTrim l ≠ "---") :
    fmLoop lines false 0 [] = [] := by
  have := fmLoop_skip lines [] [] h
  simpa using this

theorem extractFrontmatter_eq_none_iff (fs : FileSystem) (path : String) :
    extractFrontmatter fs path = none ↔ fs.readFileSync path = none := by
  unfold extractFrontmatter
  cases h : fs.readFileSync path <;> simp

theorem extractFrontmatter_no_delim (fs : FileSystem) (path content : String)
    (hread : fs.readFileSync path = some content)
    (h : ∀ l ∈ splitLines content, jsTrim l ≠ "---") :
    extractFrontmatter fs path = some "" := by
  simp only [extractFrontmatter, hread]
  rw [fmLoop_no_delim (splitLines content) h]
  rfl

theorem fieldGet_no_key (ys : List (String × String)) (k : String)
    (a : Option String) (h : ∀ p ∈ ys, p.1 ≠ k) :
    ys.foldl (fun acc p => if p.1 = k then some p.2 else acc) a = a := by
  induction ys generalizing a with
  | nil => rfl
  | cons hd tl ih =>
    simp only [List.mem_cons, forall_eq_or_imp] at h
    simp only [List.foldl_cons, if_neg h.1]
    exact ih a h.2

theorem fieldGet_last (xs ys : List (String × String)) (k v : String)
    (h : ∀ p ∈ ys, p.1 ≠ k) :
    fieldGet (xs ++ (k, v) :: ys) k = some v := by
  unfold fieldGet
  rw [List.foldl_append]
  simp only [List.foldl_cons, if_pos rfl]
  exact fieldGet_no_key ys k (some v) h

theorem mem_dateErrors (t : CalDate) (f : List (String × String)) (e : String)
    (h : e ∈ dateErrors t f) : e ∈ dateCodes := by
  simp only [dateErrors] at h
  unfold dateCodes
  repeat' split at h
  all_goals simp_all

theorem mem_titleErrors (f : List (String × String)) (e : String)
    (h : e ∈ titleErrors f) : e ∈ titleCodes := by
  simp only [titleErrors] at h
  unfold titleCodes
  repeat' split at h
  all_goals simp_all

theorem mem_tagsWarnings (f : List (String × String)) (e : String)
    (h : e ∈ tagsWarnings f) : e ∈ tagsCodes := by
  simp only [tagsWarnings] at h
  unfold tagsCodes
  repeat' split at h
  all_goals simp_all

theorem dateErrors_length (t : CalDate) (f : List (String × String)) :
    (dateErrors t f).length ≤ 1 := by
  simp only [dateErrors]
  repeat' split
  all_goals simp

theorem validateMetadata_readable (fs : FileSystem) (today : CalDate)
    (path fm : String) (hex : fs.existsSync path = true)
    (hfm : extractFrontmatter fs path = some fm) :
    validateMetadata fs today path =
      ⟨dateErrors today (parseFields fm) ++ titleErrors (parseFields fm),
       tagsWarnings (parseFields fm)⟩ := by
  unfold validateMetadata
  rw [hex]
  simp only [hfm, if_true]

/-- C3: for every path that does not name an existing file, validateMetadata
returns exactly the single error file not found and an empty warning list,
short-circuiting before any frontmatter extraction or field checks. -/
theorem validateMetadata_file_not_found (fs : FileSystem) (today : CalDate)
    (path : String) (h : fs.existsSync path = false) :
    validateMetadata fs today path = ⟨["file not found"], []⟩ := by
  unfold validateMetadata
  rw [h]
  simp

/-- Witness for C3 at a concrete missing path. -/
theorem validateMetadata_file_not_found_witness :
    (singleFileFS "a.mdx" "x").existsSync "b.mdx" = false ∧
    validateMetadata (singleFileFS "a.mdx" "x") ⟨2024, 1, 1⟩ "b.mdx" =
      ⟨["file not found"], []⟩ :=
  ⟨rfl, validateMetadata_file_not_found (singleFileFS "a.mdx" "x") ⟨2024, 1, 1⟩
    "b.mdx" rfl⟩

/-- C4: for every existing readable file, the errors list contains at most
one of the four date issue codes: the format check gates the parse check,
which gates the future check, so at most one date error appears. -/
theorem validateMetadata_one_date_error (fs : FileSystem) (today : CalDate)
    (path fm : String) (hex : fs.existsSync path = true)
    (hfm : extractFrontmatter fs path = some fm) :
    ((validateMetadata fs today path).errors.filter
      (fun e => dateCodes.contains e)).length ≤ 1 := by
  rw [validateMetadata_readable fs today path fm hex hfm]
  have h1 : (titleErrors (parseFields fm)).filter
      (fun e => dateCodes.contains e) = [] := by
    rw [List.filter_eq_nil_iff]
    intro a ha
    have h2 := mem_titleErrors (parseFields fm) a ha
    unfold titleCodes at h2
    simp only [List.mem_cons, List.not_mem_nil, or_false] at h2
    rcases h2 with rfl | rfl <;> decide
  have h3 := dateErrors_length today (parseFields fm)
  have h4 := List.length_filter_le (fun e => dateCodes.contains e)
    (dateErrors today (parseFields fm))
  simp only [List.filter_append, h1, List.append_nil]
  omega

/-- Witness for C4 at a concrete readable file. -/
theorem validateMetadata_one_date_error_witness :
    (((validateMetadata (singleFileFS "a.mdx" "---\ndate: nonsense\n---\n")
        ⟨2024, 1, 1⟩ "a.mdx").errors.filter
      (fun e => dateCodes.contains e)).length ≤ 1) :=
  validateMetadata_one_date_error (singleFileFS "a.mdx" "---\ndate: nonsense\n---\n")
    ⟨2024, 1, 1⟩ "a.mdx" "date: nonsense" rfl rfl

/-- C6: extractFrontmatter returns the empty string, not the unreadable
sentinel, for a readable file with no delimiter line; it returns the
sentinel none exactly when reading fails; and validateMetadata maps the
sentinel to the single error cannot read file, short-circuiting. -/
theorem extractFrontmatter_sentinel (fs : FileSystem) (today : CalDate)
    (path content : String) :
    (fs.readFileSync path = some content →
      (∀ l ∈ splitLines content, jsTrim l ≠ "---") →
      extractFrontmatter fs path = some "") ∧
    (extractFrontmatter fs path = none ↔ fs.readFileSync path = none) ∧
    (fs.existsSync path = true → fs.readFileSync path = none →
      validateMetadata fs today path = ⟨["cannot read file"], []⟩) := by
  refine ⟨?_, extractFrontmatter_eq_none_iff fs path, ?_⟩
  · intro hr h
    exact extractFrontmatter_no_delim fs path content hr h
  · intro hex hr
    unfold validateMetadata
    rw [hex]
    have h2 : extractFrontmatter fs path = none :=
      (extractFrontmatter_eq_none_iff fs path).mpr hr
    simp [h2]

/-- Witness for C6: a readable file with no delimiter lines, and an
existing but unreadable file. -/
theorem extractFrontmatter_sentinel_witness :
    extractFrontmatter (singleFileFS "a.mdx" "Just content") "a.mdx" = some "" ∧
    validateMetadata unreadableFS ⟨2024, 1, 1⟩ "x" = ⟨["cannot read file"], []⟩ :=
  ⟨(extractFrontmatter_sentinel (singleFileFS "a.mdx" "Just content") ⟨2024, 1, 1⟩
      "a.mdx" "Just content").1 rfl (by decide),
   (extractFrontmatter_sentinel unreadableFS ⟨2024, 1, 1⟩ "x" "").2.2 rfl rfl⟩


/-- C7: for a readable file with exactly one delimiter line, the trimmed
three-hyphen line, extractFrontmatter returns all lines after that
delimiter up to the end of the file, joined by newlines. -/
theorem extractFrontmatter_single_delim_claim (fs : FileSystem)
    (path content dline : String) (pre post : List String)
    (hread : fs.readFileSync path = some content)
    (hsplit : splitLines content = pre ++ dline :: post)
    (hpre : ∀ l ∈ pre, jsTrim l ≠ "---")
    (hd : jsTrim dline = "---")
    (hpost : ∀ l ∈ post, jsTrim l ≠ "---") :
    extractFrontmatter fs path = some (String.intercalate "\n" post) := by
  simp only [extractFrontmatter, hread]
  rw [hsplit, fmLoop_skip pre (dline :: post) [] hpre,
    fmLoop_open dline post [] hd]
  have h2 := fmLoop_collect post [] [] hpost
  simp only [List.append_nil, List.nil_append] at h2
  rw [h2]
  rfl

/-- Witness for C7: an opening delimiter that is never closed. -/
theorem extractFrontmatter_single_delim_witness :
    extractFrontmatter (singleFileFS "a.mdx" "Intro\n---\ntitle: T\ndate: D")
      "a.mdx" = some "title: T\ndate: D" :=
  extractFrontmatter_single_delim_claim (singleFileFS "a.mdx" "Intro\n---\ntitle: T\ndate: D")
    "a.mdx" "Intro\n---\ntitle: T\ndate: D" "---" ["Intro"] ["title: T", "date: D"]
    rfl rfl (by decide) rfl (by decide)

/-- C10: extractFrontmatter opens the region at the first line anywhere in
the file whose trimmed content is the delimiter, discarding all lines
before it; the text between two mid-file delimiter lines is extracted as
frontmatter. -/
theorem extractFrontmatter_first_delim_anywhere (fs : FileSystem)
    (path content d1 d2 : String) (pre mid post : List String)
    (hread : fs.readFileSync path = some content)
    (hsplit : splitLines content = pre ++ d1 :: (mid ++ d2 :: post))
    (hpre : ∀ l ∈ pre, jsTrim l ≠ "---")
    (hd1 : jsTrim d1 = "---")
    (hmid : ∀ l ∈ mid, jsTrim l ≠ "---")
    (hd2 : jsTrim d2 = "---") :
    extractFrontmatter fs path = some (String.intercalate "\n" mid) := by
  simp only [extractFrontmatter, hread]
  rw [hsplit, fmLoop_skip pre (d1 :: (mid ++ d2 :: post)) [] hpre,
    fmLoop_open d1 (mid ++ d2 :: post) [] hd1,
    fmLoop_collect mid (d2 :: post) [] hmid]
  rw [List.nil_append, fmLoop_close d2 post mid hd2]

/-- Witness for C10: a file with no top frontmatter whose body holds two
thematic-break lines; the text between them is extracted. -/
theorem extractFrontmatter_first_delim_anywhere_witness :
    extractFrontmatter
      (singleFileFS "a.mdx" "# Title\n\nIntro\n---\ndate: 2024-01-01\n---\nMore")
      "a.mdx" = some "date: 2024-01-01" :=
  extractFrontmatter_first_delim_anywhere
    (singleFileFS "a.mdx" "# Title\n\nIntro\n---\ndate: 2024-01-01\n---\nMore")
    "a.mdx" "# Title\n\nIntro\n---\ndate: 2024-01-01\n---\nMore" "---" "---"
    ["# Title", "", "Intro"] ["date: 2024-01-01"] ["More"]
    rfl rfl (by decide) rfl (by decide) rfl

/-- C8: when the same field name appears on several field lines, the field
map lookup used by validateMetadata yields the value of the last such line,
the value being the trimmed capture matchFieldLine produces for it; all
later rules read this value through fieldGet. -/
theorem fieldGet_last_field_line (fm k v : String) (line : String)
    (pre post : List String)
    (hsplit : splitLines fm = pre ++ line :: post)
    (hline : matchFieldLine line = some (k, v))
    (hpost : ∀ l ∈ post, ∀ v2, matchFieldLine l ≠ some (k, v2)) :
    fieldGet (parseFields fm) k = some v := by
  unfold parseFields
  rw [hsplit, List.filterMap_append]
  simp only [List.filterMap_cons, hline]
  apply fieldGet_last
  intro p hp hpk
  rw [List.mem_filterMap] at hp
  obtain ⟨l, hl, hml⟩ := hp
  obtain ⟨p1, p2⟩ := p
  simp only at hpk
  subst hpk
  exact hpost l hl p2 hml

/-- Witness for C8: two date lines, the later value wins. -/
theorem fieldGet_last_field_line_witness :
    fieldGet (parseFields "date: 2024-01-01\ndate: 2024-02-02") "date" =
      some "2024-02-02" :=
  fieldGet_last_field_line "date: 2024-01-01\ndate: 2024-02-02" "date"
    "2024-02-02" "date: 2024-02-02" ["date: 2024-01-01"] [] rfl rfl (by simp)


theorem isEmptyArrayShape_iff (s : String) :
    tagsWarnings.isEmptyArrayShape s = true ↔
      ∃ mid, s.toList = '[' :: (mid ++ [']']) ∧ ∀ c ∈ mid, c.isWhitespace = true := by
  unfold tagsWarnings.isEmptyArrayShape
  rcases hs : s.toList with _ | ⟨c, rest⟩
  · simp
  · rcases hr : rest.reverse with _ | ⟨lastC, midRev⟩
    · have h0 : rest = [] := by
        have h1 := congrArg List.reverse hr
        simpa using h1
      subst h0
      simp
    · have h0 : rest = midRev.reverse ++ [lastC] := by
        have h1 := congrArg List.reverse hr
        simpa using h1
      subst h0
      simp only [hr, Bool.and_eq_true, beq_iff_eq, List.all_eq_true]
      constructor
      · rintro ⟨⟨hc, hl⟩, hws⟩
        subst hc
        subst hl
        exact ⟨midRev.reverse, rfl, fun x hx => hws x (List.mem_reverse.mp hx)⟩
      · rintro ⟨mid, heq, hws⟩
        simp only [List.cons.injEq] at heq
        obtain ⟨hc, hrest⟩ := heq
        have h2 := congrArg List.reverse hrest
        simp only [List.reverse_append, List.reverse_cons, List.reverse_nil,
          List.nil_append, List.reverse_reverse, List.singleton_append,
          List.cons.injEq] at h2
        obtain ⟨hl, hm⟩ := h2
        subst hc
        subst hl
        subst hm
        exact ⟨⟨rfl, rfl⟩, fun x hx => hws x (List.mem_reverse.mp hx)⟩



theorem tagsWarnings_some (fields : List (String × String)) (v : String)
    (hv : fieldGet fields "tags" = some v) :
    tagsWarnings fields =
      if !(v.toList.contains '[') then ["tags must be an array"]
      else if tagsWarnings.isEmptyArrayShape v then ["tags array cannot be empty"]
      else [] := by
  simp only [tagsWarnings, hv]

/-- C5: the tags checks only ever contribute to warnings, and yield exactly
one of missing tags, tags must be an array when the value has no opening
bracket, tags array cannot be empty when the whole value is a bracket,
optional whitespace and a closing bracket, and nothing otherwise. -/
theorem validateMetadata_tags_rule (fs : FileSystem) (today : CalDate)
    (path fm : String) (hex : fs.existsSync path = true)
    (hfm : extractFrontmatter fs path = some fm) :
    (∀ e ∈ (validateMetadata fs today path).errors, e ∉ tagsCodes) ∧
    (fieldGet (parseFields fm) "tags" = none →
      (validateMetadata fs today path).warnings = ["missing tags"]) ∧
    (∀ v, fieldGet (parseFields fm) "tags" = some v →
      (∀ c ∈ v.toList, c ≠ '[') →
      (validateMetadata fs today path).warnings = ["tags must be an array"]) ∧
    (∀ v, fieldGet (parseFields fm) "tags" = some v →
      (∃ mid, v.toList = '[' :: (mid ++ [']']) ∧ ∀ c ∈ mid, c.isWhitespace = true) →
      (validateMetadata fs today path).warnings = ["tags array cannot be empty"]) ∧
    (∀ v, fieldGet (parseFields fm) "tags" = some v → '[' ∈ v.toList →
      (¬ ∃ mid, v.toList = '[' :: (mid ++ [']']) ∧ ∀ c ∈ mid, c.isWhitespace = true) →
      (validateMetadata fs today path).warnings = []) := by
  rw [validateMetadata_readable fs today path fm hex hfm]
  refine ⟨?_, ?_, ?_, ?_, ?_⟩
  · intro e he
    rcases List.mem_append.mp he with h1 | h1
    · have h2 := mem_dateErrors today (parseFields fm) e h1
      unfold dateCodes at h2
      unfold tagsCodes
      simp only [List.mem_cons, List.not_mem_nil, or_false] at h2 ⊢
      rcases h2 with rfl | rfl | rfl | rfl <;> decide
    · have h2 := mem_titleErrors (parseFields fm) e h1
      unfold titleCodes at h2
      unfold tagsCodes
      simp only [List.mem_cons, List.not_mem_nil, or_false] at h2 ⊢
      rcases h2 with rfl | rfl <;> decide
  · intro h
    simp [tagsWarnings, h]
  · intro v hv hnb
    have hc : v.toList.contains '[' = false := by
      simp only [List.contains_eq_any_beq, List.any_eq_false, beq_iff_eq]
      intro c hcm h
      exact hnb c hcm h.symm
    rw [tagsWarnings_some (parseFields fm) v hv, hc]
    rfl
  · intro v hv hshape
    have hsh : tagsWarnings.isEmptyArrayShape v = true :=
      (isEmptyArrayShape_iff v).mpr hshape
    have hc : v.toList.contains '[' = true := by
      obtain ⟨mid, heq, _⟩ := hshape
      simp only [List.contains_eq_any_beq, List.any_eq_true, beq_iff_eq]
      exact ⟨'[', by rw [heq]; exact List.mem_cons_self _ _, rfl⟩
    rw [tagsWarnings_some (parseFields fm) v hv, hc, hsh]
    rfl
  · intro v hv hcm hshape
    have hsh : tagsWarnings.isEmptyArrayShape v = false := by
      rw [Bool.eq_false_iff]
      intro h
      exact hshape ((isEmptyArrayShape_iff v).mp h)
    have hc : v.toList.contains '[' = true := by
      simp only [List.contains_eq_any_beq, List.any_eq_true, beq_iff_eq]
      exact ⟨'[', hcm, rfl⟩
    rw [tagsWarnings_some (parseFields fm) v hv, hc, hsh]
    rfl

/-- Witness for C5 at a concrete readable file with an empty tags array. -/
theorem validateMetadata_tags_rule_witness :
    (validateMetadata (singleFileFS "a.mdx" "---\ntitle: T\ndate: 2024-01-01\ntags: []\n---\n")
        ⟨2024, 6, 1⟩ "a.mdx").warnings = ["tags array cannot be empty"] :=
  (validateMetadata_tags_rule (singleFileFS "a.mdx" "---\ntitle: T\ndate: 2024-01-01\ntags: []\n---\n")
    ⟨2024, 6, 1⟩ "a.mdx" "title: T\ndate: 2024-01-01\ntags: []" rfl rfl).2.2.2.1
    "[]" rfl ⟨[], rfl, by simp⟩



/-- C9: for every existing readable file, errors decomposes as date issues
followed by title issues, and every warning is a tags issue, giving the
fixed order tags issues, then date issues, then title issues. -/
theorem validateMetadata_issue_order (fs : FileSystem) (today : CalDate)
    (path fm : String) (hex : fs.existsSync path = true)
    (hfm : extractFrontmatter fs path = some fm) :
    (∃ de te, (validateMetadata fs today path).errors = de ++ te ∧
        (∀ e ∈ de, e ∈ dateCodes) ∧ (∀ e ∈ te, e ∈ titleCodes)) ∧
    (∀ w ∈ (validateMetadata fs today path).warnings, w ∈ tagsCodes) := by
  rw [validateMetadata_readable fs today path fm hex hfm]
  exact ⟨⟨dateErrors today (parseFields fm), titleErrors (parseFields fm), rfl,
    fun e he => mem_dateErrors today (parseFields fm) e he,
    fun e he => mem_titleErrors (parseFields fm) e he⟩,
    fun w hw => mem_tagsWarnings (parseFields fm) w hw⟩

/-- Witness for C9 at a concrete readable file. -/
theorem validateMetadata_issue_order_witness :
    (∃ de te, (validateMetadata (singleFileFS "a.mdx" "---\ndate: nope\ntitle:\n---\n")
        ⟨2024, 1, 1⟩ "a.mdx").errors = de ++ te ∧
        (∀ e ∈ de, e ∈ dateCodes) ∧ (∀ e ∈ te, e ∈ titleCodes)) ∧
    (∀ w ∈ (validateMetadata (singleFileFS "a.mdx" "---\ndate: nope\ntitle:\n---\n")
        ⟨2024, 1, 1⟩ "a.mdx").warnings, w ∈ tagsCodes) :=
  validateMetadata_issue_order (singleFileFS "a.mdx" "---\ndate: nope\ntitle:\n---\n")
    ⟨2024, 1, 1⟩ "a.mdx" "date: nope\ntitle:" rfl rfl



theorem dateErrors_some (t : CalDate) (fields : List (String × String))
    (v : String) (hv : fieldGet fields "date" = some v) :
    dateErrors t fields =
      if !(matchesDatePattern (jsTrim (stripQuotes v))) then
        ["invalid date format - use YYYY-MM-DD"]
      else
        match parseISODate (jsTrim (stripQuotes v)) with
        | none => ["invalid date value"]
        | some dt =>
          if validCalDate dt then
            if dayNumber t < dayNumber dt then ["date cannot be in the future"]
            else []
          else ["invalid date value"] := by
  simp only [dateErrors, hv]

/-- C2 amended: the script removes every quote character in the date value,
not only surrounding ones, then trims; the format error is reported exactly
when that cleaned value fails the four-two-two digit pattern. -/
theorem validateMetadata_date_format_iff (fs : FileSystem) (today : CalDate)
    (path fm v : String) (hex : fs.existsSync path = true)
    (hfm : extractFrontmatter fs path = some fm)
    (hv : fieldGet (parseFields fm) "date" = some v) :
    ("invalid date format - use YYYY-MM-DD" ∈ (validateMetadata fs today path).errors ↔
      matchesDatePattern (jsTrim (stripQuotes v)) = false) := by
  rw [validateMetadata_readable fs today path fm hex hfm]
  simp only [List.mem_append]
  have ht : "invalid date format - use YYYY-MM-DD" ∉ titleErrors (parseFields fm) :=
    fun h => absurd (mem_titleErrors (parseFields fm) _ h) (by decide)
  have hne1 : "invalid date format - use YYYY-MM-DD" ≠ "invalid date value" := by decide
  have hne2 : "invalid date format - use YYYY-MM-DD" ≠ "date cannot be in the future" := by
    decide
  rw [dateErrors_some today (parseFields fm) v hv]
  cases hpat : matchesDatePattern (jsTrim (stripQuotes v))
  · simp [ht]
  · cases hp : parseISODate (jsTrim (stripQuotes v))
    · simp [ht, hne1]
    · simp only [Bool.not_true, Bool.false_eq_true, if_false]
      split
      · split <;> simp [ht, hne1, hne2]
      · simp [ht, hne1]

/-- Witness for C2 amended: a slash-formatted date is reported. -/
theorem validateMetadata_date_format_iff_witness :
    ("invalid date format - use YYYY-MM-DD" ∈
      (validateMetadata (singleFileFS "a.mdx" "---\ntitle: T\ndate: 01/15/2024\n---\n")
        ⟨2024, 6, 1⟩ "a.mdx").errors ↔
      matchesDatePattern (jsTrim (stripQuotes "01/15/2024")) = false) :=
  validateMetadata_date_format_iff (singleFileFS "a.mdx" "---\ntitle: T\ndate: 01/15/2024\n---\n")
    ⟨2024, 6, 1⟩ "a.mdx" "title: T\ndate: 01/15/2024" "01/15/2024" rfl rfl rfl

/-- C2 counterexample: a date value with a quote in its interior. Reading
the claim as stripping only surrounding quotes, the cleaned value fails the
pattern, so the claim demands the format error; the script strips the
interior quote too, accepts the date and reports nothing. -/
theorem validateMetadata_date_format_counterexample :
    fieldGet (parseFields "title: T\ndate: 20\"24-06-01\ntags: [\"a\"]") "date" =
      some "20\"24-06-01" ∧
    matchesDatePattern (specStripSurroundingQuotes "20\"24-06-01") = false ∧
    "invalid date format - use YYYY-MM-DD" ∉
      (validateMetadata
        (singleFileFS "doc.mdx" "---\ntitle: T\ndate: 20\"24-06-01\ntags: [\"a\"]\n---\n")
        ⟨2025, 1, 1⟩ "doc.mdx").errors :=
  ⟨rfl, rfl, by decide⟩



/-- C1: for every existing readable file whose date value, after quote
stripping and trimming, matches the pattern and parses to a valid calendar
date, the future-date error is reported exactly when that date is strictly
after the current day in the calendar order; a date equal to today yields
no future-date error. -/
theorem validateMetadata_future_iff (fs : FileSystem) (today : CalDate)
    (path fm v : String) (dt : CalDate)
    (hex : fs.existsSync path = true)
    (hfm : extractFrontmatter fs path = some fm)
    (hv : fieldGet (parseFields fm) "date" = some v)
    (hpat : matchesDatePattern (jsTrim (stripQuotes v)) = true)
    (hparse : parseISODate (jsTrim (stripQuotes v)) = some dt)
    (hdt : validCalDate dt) (htoday : validCalDate today) :
    ("date cannot be in the future" ∈ (validateMetadata fs today path).errors ↔
      calLt today dt) := by
  rw [validateMetadata_readable fs today path fm hex hfm]
  simp only [List.mem_append]
  have ht : "date cannot be in the future" ∉ titleErrors (parseFields fm) :=
    fun h => absurd (mem_titleErrors (parseFields fm) _ h) (by decide)
  have hde : dateErrors today (parseFields fm) =
      if dayNumber today < dayNumber dt then ["date cannot be in the future"]
      else [] := by
    rw [dateErrors_some today (parseFields fm) v hv]
    simp [hpat, hparse, hdt]
  rw [hde]
  have hiff := dayNumber_lt_iff today dt htoday hdt
  by_cases hlt : dayNumber today < dayNumber dt
  · simp [hlt, ht, hiff.mp hlt]
  · have hnc : ¬ calLt today dt := fun hc => hlt (hiff.mpr hc)
    simp [hlt, ht, hnc]

/-- Witness for C1: a date equal to today produces no future-date error,
while the order side of the equivalence is irreflexive at that date. -/
theorem validateMetadata_future_iff_witness :
    ("date cannot be in the future" ∈
      (validateMetadata (singleFileFS "a.mdx" "---\ntitle: T\ndate: 2024-06-01\ntags: [\"a\"]\n---\n")
        ⟨2024, 6, 1⟩ "a.mdx").errors ↔ calLt ⟨2024, 6, 1⟩ ⟨2024, 6, 1⟩) :=
  validateMetadata_future_iff
    (singleFileFS "a.mdx" "---\ntitle: T\ndate: 2024-06-01\ntags: [\"a\"]\n---\n")
    ⟨2024, 6, 1⟩ "a.mdx" "title: T\ndate: 2024-06-01\ntags: [\"a\"]" "2024-06-01"
    ⟨2024, 6, 1⟩ rfl rfl rfl rfl rfl (by decide) (by decide)


end DocsMetadata
